import Mathlib

/-!
Verification of the `gojobqueue` package (src/queue.go): a bounded FIFO job
queue built on a Go channel.  A `Queue` is `chan job`; `AddJob` sends on the
channel and converts the send-on-closed-channel panic into an error return via
`defer`/`recover`; `Close` closes the channel (panicking if it is already
closed, as `close` does in Go); `workJobs` ranges over the channel, running
each job's `transact` and, when it returns a non-nil error, its `rollback`.

The embedding models the channel as an explicit bounded buffer with a closed
flag, Go run-time panics as explicit outcomes, and the caller-supplied
closures by their observable behaviour: a `transact` closure is described by a
marker id and the error value it returns (`none` = nil error), and calling it
is recorded as an event.  A Go function value may be nil; calling a nil
function is a run-time panic, which `GoFunc.nil` models.
-/

namespace GoJobQueue

/-- Abstract Go `error` values returned by a job's `transact` (non-nil errors
are modelled as natural-number codes). -/
abbrev GoErr := Nat

/-- Observable description of a (non-nil) `transact` closure: its marker `id`
and the error it returns (`none` models a nil error, i.e. success). -/
structure JobSpec where
  id : Nat
  result : Option GoErr
  deriving DecidableEq, Repr

/-- A Go function value: either nil or an actual function (described by its
observable behaviour `α`).  Calling a nil function value panics. -/
inductive GoFunc (α : Type) where
  | nil : GoFunc α
  | mk : α → GoFunc α
  deriving DecidableEq, Repr

/-- `type job struct { transact func() error; rollback func(error) }`.
`rollback`'s behaviour needs no description beyond being callable, so a
non-nil rollback is `GoFunc.mk ()`. -/
structure job where
  transact : GoFunc JobSpec
  rollback : GoFunc Unit
  deriving DecidableEq, Repr

/-- `type Queue chan job`: a Go channel value is a bounded FIFO buffer with a
capacity fixed at `make` and a closed flag. -/
structure Queue where
  capacity : Nat
  buffer : List job
  closed : Bool
  deriving DecidableEq, Repr

/-- `make(Queue, c)`: an open channel with capacity `c` and empty buffer. -/
def makeQueue (c : Nat) : Queue := ⟨c, [], false⟩

/-- Go run-time panics that the channel operations and the worker can raise. -/
inductive GoPanic where
  | sendOnClosedChannel
  | closeOfClosedChannel
  | nilFunctionCall
  deriving DecidableEq, Repr

/-- A Go `error` value as returned by `AddJob`: the only non-nil errors it can
produce are recovered run-time errors (Go run-time panics implement `error`,
so the `r.(error)` assertion in `AddJob`'s deferred recover succeeds). -/
inductive GoError where
  | runtime : GoPanic → GoError
  deriving DecidableEq, Repr

/-- Outcome of the raw channel send `q <- j`. -/
inductive SendResult where
  | ok : Queue → SendResult
  | blocked : SendResult
  | panicked : GoPanic → SendResult
  deriving DecidableEq, Repr

/-- Go semantics of `q <- j`: sending on a closed channel panics; if the
buffer has free capacity the value is appended; otherwise the sender blocks
(it is parked until a receive frees a slot or the channel is closed, at which
point the attempt is re-evaluated against the new channel state). -/
def chanSend (q : Queue) (j : job) : SendResult :=
  if q.closed then .panicked .sendOnClosedChannel
  else if q.buffer.length < q.capacity then
    .ok { q with buffer := q.buffer ++ [j] }
  else .blocked

/-- Outcome of the raw channel receive done by `for j := range q`. -/
inductive RecvResult where
  | got : job → Queue → RecvResult
  | closedEmpty : RecvResult
  | blocked : RecvResult
  deriving DecidableEq, Repr

/-- Go semantics of a channel receive: take the oldest buffered value; on an
empty buffer, terminate the range if the channel is closed, otherwise block. -/
def chanRecv (q : Queue) : RecvResult :=
  match q.buffer with
  | j :: rest => .got j { q with buffer := rest }
  | [] => if q.closed then .closedEmpty else .blocked

/-- Result of `AddJob`, which cannot panic (the deferred `recover` converts
any panic of the send into the returned `err`). -/
inductive AddJobResult where
  | ok : Queue → AddJobResult
  | blocked : AddJobResult
  | error : GoError → Queue → AddJobResult
  deriving DecidableEq, Repr

/-- `func (q Queue) AddJob(transact, rollback) (err error)`: builds the job,
sends it on the channel, and returns nil on success; a panic of the send
(send on closed channel) is recovered and returned as `err`.  A full open
buffer parks the caller. -/
def AddJob (q : Queue) (transact : GoFunc JobSpec) (rollback : GoFunc Unit) :
    AddJobResult :=
  match chanSend q ⟨transact, rollback⟩ with
  | .ok q1 => .ok q1
  | .blocked => .blocked
  | .panicked p => .error (.runtime p) q

/-- Result of `Close`: `close` on an already-closed channel panics, and
`Close` installs no recover. -/
inductive CloseResult where
  | ok : Queue → CloseResult
  | panicked : GoPanic → CloseResult
  deriving DecidableEq, Repr

/-- `func (q Queue) Close() { close(q) }`: marks the channel closed; buffered
values stay; closing a closed channel panics. -/
def Close (q : Queue) : CloseResult :=
  if q.closed then .panicked .closeOfClosedChannel
  else .ok { q with closed := true }

/-- Observable events of the worker: a call of a job's `transact` (with the
error it returned) and a call of a job's `rollback` (with the error passed to
it).  Events name the job by its transact marker id. -/
inductive Event where
  | transactRun : Nat → Option GoErr → Event
  | rollbackRun : Nat → GoErr → Event
  deriving DecidableEq, Repr

/-- One iteration body of `workJobs` on a dequeued job `j`:
`err := j.transact(); if err != nil { j.rollback(err) }`.  Calling a nil
function value panics; the worker has no recover. -/
def runJob (j : job) : List Event × Option GoPanic :=
  match j.transact with
  | .nil => ([], some .nilFunctionCall)
  | .mk s =>
    match s.result with
    | none => ([.transactRun s.id none], none)
    | some e =>
      match j.rollback with
      | .nil => ([.transactRun s.id (some e)], some .nilFunctionCall)
      | .mk _ => ([.transactRun s.id (some e), .rollbackRun s.id e], none)

/-- How a run of the worker loop ends. -/
inductive WorkerOutcome where
  | terminated
  | blockedOpen
  | panicked : GoPanic → WorkerOutcome
  deriving DecidableEq, Repr

/-- `func workJobs(q Queue) { for j := range q { ... } }`, run over the channel
state `(buf, closed)`: receive jobs FIFO and execute each with `runJob` until
the buffer is empty, then terminate if the channel is closed or block if it is
still open; a panic inside a job aborts the loop (uncaught). -/
def workJobs : List job → Bool → List Event × WorkerOutcome
  | [], closed => ([], if closed then .terminated else .blockedOpen)
  | j :: rest, closed =>
    match runJob j with
    | (evs, some p) => (evs, .panicked p)
    | (evs, none) =>
      let r := workJobs rest closed
      (evs ++ r.1, r.2)

/-- A job whose closures can be called without a run-time fault: `transact`
is non-nil, and if it fails, `rollback` is non-nil too. -/
def wellFormed (j : job) : Bool :=
  match j.transact with
  | .nil => false
  | .mk s =>
    match s.result with
    | none => true
    | some _ =>
      match j.rollback with
      | .nil => false
      | .mk _ => true

/-- The transact marker of a job (none for a nil transact). -/
def jobMarker (j : job) : Option Nat :=
  match j.transact with
  | .nil => none
  | .mk s => some s.id

/-- The markers of the transact calls in a trace, in order. -/
def transactIds (evs : List Event) : List Nat :=
  evs.filterMap fun e =>
    match e with
    | .transactRun i _ => some i
    | .rollbackRun _ _ => none

/-- Whether an event belongs to the job with marker `i`. -/
def eventFor (i : Nat) : Event → Bool
  | .transactRun x _ => x = i
  | .rollbackRun x _ => x = i

/-- The events of a trace that belong to the job with marker `i`. -/
def eventsFor (i : Nat) (evs : List Event) : List Event :=
  evs.filter (eventFor i)

/-- A sequence of `AddJob` calls, one per listed job, each caller giving up on
anything but success (a blocked caller stays parked, a closed queue returns an
error); returns the per-call results and the final queue state. -/
def addAll (q : Queue) : List job → List AddJobResult × Queue
  | [] => ([], q)
  | j :: rest =>
    match AddJob q j.transact j.rollback with
    | .ok q1 =>
      let r := addAll q1 rest
      (.ok q1 :: r.1, r.2)
    | .blocked =>
      let r := addAll q rest
      (.blocked :: r.1, r.2)
    | .error e q1 =>
      let r := addAll q rest
      (.error e q1 :: r.1, r.2)

/-- The jobs of a job list whose `AddJob` call succeeded, in call order. -/
def succeededJobs (q : Queue) : List job → List job
  | [] => []
  | j :: rest =>
    match AddJob q j.transact j.rollback with
    | .ok q1 => j :: succeededJobs q1 rest
    | .blocked => succeededJobs q rest
    | .error _ _ => succeededJobs q rest

/-- The full trace of the worker over a job list (the events of `workJobs`
when no job panics). -/
def traceOf : List job → List Event
  | [] => []
  | j :: rest => (runJob j).1 ++ traceOf rest

/-- The shape of an `AddJob` result, forgetting every payload: 0 = success
(nil error), 1 = caller parked, 2 = error returned. -/
def addJobOutcomeShape : AddJobResult → Nat
  | .ok _ => 0
  | .blocked => 1
  | .error _ _ => 2

theorem runJob_wf (j : job) (h : wellFormed j = true) : (runJob j).2 = none := by
  cases ht : j.transact with
  | nil => simp [wellFormed, ht] at h
  | mk s =>
    cases hr : s.result with
    | none => simp [runJob, ht, hr]
    | some e =>
      cases hb : j.rollback with
      | nil => simp [wellFormed, ht, hr, hb] at h
      | mk u => simp [runJob, ht, hr, hb]

theorem workJobs_wf (buf : List job) (closed : Bool)
    (h : ∀ j ∈ buf, wellFormed j = true) :
    workJobs buf closed =
      (traceOf buf, if closed then .terminated else .blockedOpen) := by
  induction buf with
  | nil => rfl
  | cons j rest ih =>
    have hj : (runJob j).2 = none := runJob_wf j (h j (List.mem_cons_self j rest))
    have hrest : ∀ x ∈ rest, wellFormed x = true :=
      fun x hx => h x (List.mem_cons_of_mem j hx)
    unfold workJobs
    rw [ih hrest]
    cases hrun : runJob j with
    | mk evs p =>
      rw [hrun] at hj
      simp at hj
      subst hj
      simp [traceOf, hrun]

theorem transactIds_append (a b : List Event) :
    transactIds (a ++ b) = transactIds a ++ transactIds b := by
  simp [transactIds, List.filterMap_append]

theorem transactIds_runJob (j : job) (s : JobSpec) (ht : j.transact = .mk s)
    (h : wellFormed j = true) : transactIds (runJob j).1 = [s.id] := by
  cases hr : s.result with
  | none => simp [runJob, transactIds, ht, hr]
  | some e =>
    cases hb : j.rollback with
    | nil => simp [wellFormed, ht, hr, hb] at h
    | mk u => simp [runJob, transactIds, ht, hr, hb]

theorem transactIds_traceOf (buf : List job)
    (hwf : ∀ j ∈ buf, wellFormed j = true) :
    transactIds (traceOf buf) = buf.filterMap jobMarker := by
  induction buf with
  | nil => rfl
  | cons x rest ih =>
    have hx : wellFormed x = true := hwf x (List.mem_cons_self x rest)
    have hrest : ∀ j ∈ rest, wellFormed j = true :=
      fun j hj => hwf j (List.mem_cons_of_mem x hj)
    cases ht : x.transact with
    | nil => simp [wellFormed, ht] at hx
    | mk s =>
      have h1 : transactIds (runJob x).1 = [s.id] := transactIds_runJob x s ht hx
      simp only [traceOf, transactIds_append, h1, ih hrest,
        List.filterMap_cons, jobMarker, ht]
      rfl

theorem addJob_ok (q q1 : Queue) (t : GoFunc JobSpec) (r : GoFunc Unit)
    (h : AddJob q t r = .ok q1) :
    q.closed = false ∧ q.buffer.length < q.capacity ∧
      q1 = { q with buffer := q.buffer ++ [⟨t, r⟩] } := by
  unfold AddJob chanSend at h
  cases hc : q.closed with
  | true => rw [hc] at h; simp at h
  | false =>
    rw [hc] at h
    by_cases hl : q.buffer.length < q.capacity
    · simp [hl] at h
      exact ⟨rfl, hl, h.symm⟩
    · simp [hl] at h

theorem addJob_blocked (q : Queue) (t : GoFunc JobSpec) (r : GoFunc Unit)
    (h : AddJob q t r = .blocked) :
    q.closed = false ∧ ¬ q.buffer.length < q.capacity := by
  unfold AddJob chanSend at h
  cases hc : q.closed with
  | true => rw [hc] at h; simp at h
  | false =>
    rw [hc] at h
    by_cases hl : q.buffer.length < q.capacity
    · simp [hl] at h
    · exact ⟨rfl, hl⟩

theorem addAll_state (q : Queue) (js : List job) :
    ((addAll q js).2).buffer = q.buffer ++ succeededJobs q js ∧
      ((addAll q js).2).capacity = q.capacity ∧
      ((addAll q js).2).closed = q.closed := by
  induction js generalizing q with
  | nil => simp [addAll, succeededJobs]
  | cons j rest ih =>
    cases h : AddJob q j.transact j.rollback with
    | ok q1 =>
      obtain ⟨hc, hl, hq1⟩ := addJob_ok q q1 j.transact j.rollback h
      subst hq1
      have heta : (⟨j.transact, j.rollback⟩ : job) = j := rfl
      obtain ⟨ihb, ihcap, ihcl⟩ :=
        ih { q with buffer := q.buffer ++ [⟨j.transact, j.rollback⟩] }
      refine ⟨?_, ?_, ?_⟩
      · simp only [addAll, succeededJobs, h, ihb]
        simp [heta, hc]
      · simp only [addAll, succeededJobs, h, ihcap]
      · simp only [hc] at ihcl
        simp only [addAll, succeededJobs, h, hc, ihcl]
    | blocked =>
      obtain ⟨ihb, ihcap, ihcl⟩ := ih q
      exact ⟨by simp only [addAll, succeededJobs, h, ihb],
        by simp only [addAll, succeededJobs, h, ihcap],
        by simp only [addAll, succeededJobs, h, ihcl]⟩
    | error e q1 =>
      obtain ⟨ihb, ihcap, ihcl⟩ := ih q
      exact ⟨by simp only [addAll, succeededJobs, h, ihb],
        by simp only [addAll, succeededJobs, h, ihcap],
        by simp only [addAll, succeededJobs, h, ihcl]⟩

theorem succeededJobs_subset (q : Queue) (js : List job) :
    ∀ x ∈ succeededJobs q js, x ∈ js := by
  induction js generalizing q with
  | nil => intro x hx; simp [succeededJobs] at hx
  | cons j rest ih =>
    intro x hx
    cases h : AddJob q j.transact j.rollback with
    | ok q1 =>
      simp only [succeededJobs, h] at hx
      cases hx with
      | head => exact List.mem_cons_self j rest
      | tail _ hx2 => exact List.mem_cons_of_mem j (ih q1 x hx2)
    | blocked =>
      simp only [succeededJobs, h] at hx
      exact List.mem_cons_of_mem j (ih q x hx)
    | error e q1 =>
      simp only [succeededJobs, h] at hx
      exact List.mem_cons_of_mem j (ih q x hx)

/-- C2: for every sequence of `AddJob` calls on a fresh queue (any length,
any capacity), the worker's transact calls happen in exactly the order in
which the `AddJob` calls succeeded: the markers of the executed transacts
equal the markers of the successfully enqueued jobs, in call order. -/
theorem fifo_order (c : Nat) (js : List job)
    (hwf : ∀ j ∈ js, wellFormed j = true) :
    transactIds (workJobs ((addAll (makeQueue c) js).2).buffer true).1 =
      (succeededJobs (makeQueue c) js).filterMap jobMarker := by
  have hbuf : ((addAll (makeQueue c) js).2).buffer =
      succeededJobs (makeQueue c) js := by
    have h := (addAll_state (makeQueue c) js).1
    simpa [makeQueue] using h
  have hwfs : ∀ j ∈ succeededJobs (makeQueue c) js, wellFormed j = true :=
    fun j hj => hwf j (succeededJobs_subset (makeQueue c) js j hj)
  rw [hbuf, workJobs_wf _ true hwfs]
  exact transactIds_traceOf _ hwfs

/-- Witness for C2: capacity 2, three jobs offered with no worker running —
the first two succeed, the third blocks; the worker then runs markers 1, 2 in
that order. -/
theorem fifo_order_witness :
    transactIds (workJobs ((addAll (makeQueue 2)
        [⟨.mk ⟨1, none⟩, .mk ()⟩, ⟨.mk ⟨2, some 5⟩, .mk ()⟩,
          ⟨.mk ⟨3, none⟩, .mk ()⟩]).2).buffer true).1 =
      (succeededJobs (makeQueue 2)
        [⟨.mk ⟨1, none⟩, .mk ()⟩, ⟨.mk ⟨2, some 5⟩, .mk ()⟩,
          ⟨.mk ⟨3, none⟩, .mk ()⟩]).filterMap jobMarker :=
  fifo_order 2
    [⟨.mk ⟨1, none⟩, .mk ()⟩, ⟨.mk ⟨2, some 5⟩, .mk ()⟩,
      ⟨.mk ⟨3, none⟩, .mk ()⟩] (by decide)

theorem workJobs_cons_ok (j : job) (rest : List job) (closed : Bool)
    (h2 : (runJob j).2 = none) :
    workJobs (j :: rest) closed =
      ((runJob j).1 ++ (workJobs rest closed).1, (workJobs rest closed).2) := by
  cases hrun : runJob j with
  | mk evs p =>
    rw [hrun] at h2
    simp at h2
    subst h2
    simp only [workJobs, hrun]

theorem workJobs_append_wf (pre rest : List job) (closed : Bool)
    (hwf : ∀ x ∈ pre, wellFormed x = true) :
    workJobs (pre ++ rest) closed =
      (traceOf pre ++ (workJobs rest closed).1, (workJobs rest closed).2) := by
  induction pre with
  | nil => simp [traceOf]
  | cons p pre2 ih =>
    have hp : (runJob p).2 = none := runJob_wf p (hwf p (List.mem_cons_self p pre2))
    have hpre2 : ∀ x ∈ pre2, wellFormed x = true :=
      fun x hx => hwf x (List.mem_cons_of_mem p hx)
    rw [List.cons_append, workJobs_cons_ok p (pre2 ++ rest) closed hp, ih hpre2]
    simp [traceOf, List.append_assoc]

theorem runJob_fail (j : job) (s : JobSpec) (e : GoErr)
    (ht : j.transact = .mk s) (hr : s.result = some e) (hb : j.rollback ≠ .nil) :
    runJob j = ([.transactRun s.id (some e), .rollbackRun s.id e], none) := by
  cases hbr : j.rollback with
  | nil => exact absurd hbr hb
  | mk u => simp [runJob, ht, hr, hbr]

/-- C3: if a job's transact returns error `e`, the worker runs that job's
rollback exactly once, with exactly `e`, immediately after the transact and
before any later job's transact starts (the whole trace decomposes around the
two events of the failing job); and a job whose transact returns nil produces
a single transact event and no rollback event at all. -/
theorem compensation_property (pre post : List job) (j : job) (s : JobSpec)
    (e : GoErr) (hwfpre : ∀ x ∈ pre, wellFormed x = true)
    (ht : j.transact = .mk s) (hr : s.result = some e)
    (hb : j.rollback ≠ .nil) :
    (workJobs (pre ++ j :: post) true).1 =
        traceOf pre ++ .transactRun s.id (some e) :: .rollbackRun s.id e ::
          (workJobs post true).1 ∧
      ∀ x t, x.transact = .mk t → t.result = none →
        runJob x = ([.transactRun t.id none], none) := by
  constructor
  · have hjr := runJob_fail j s e ht hr hb
    have hj2 : (runJob j).2 = none := by rw [hjr]
    rw [workJobs_append_wf pre (j :: post) true hwfpre,
      workJobs_cons_ok j post true hj2, hjr]
    simp
  · intro x t htx hres
    simp [runJob, htx, hres]

/-- Witness for C3: a failing job (marker 2, error 7) between a succeeding
job and a trailing job — the rollback event follows its transact immediately
and precedes the rest of the trace. -/
theorem compensation_property_witness :
    (workJobs ([⟨.mk ⟨1, none⟩, .mk ()⟩] ++ ⟨.mk ⟨2, some 7⟩, .mk ()⟩ ::
          [⟨.mk ⟨3, none⟩, .mk ()⟩]) true).1 =
        traceOf [⟨.mk ⟨1, none⟩, .mk ()⟩] ++
          .transactRun 2 (some 7) :: .rollbackRun 2 7 ::
            (workJobs [⟨.mk ⟨3, none⟩, .mk ()⟩] true).1 ∧
      ∀ x t, x.transact = .mk t → t.result = none →
        runJob x = ([.transactRun t.id none], none) :=
  compensation_property [⟨.mk ⟨1, none⟩, .mk ()⟩] [⟨.mk ⟨3, none⟩, .mk ()⟩]
    ⟨.mk ⟨2, some 7⟩, .mk ()⟩ ⟨2, some 7⟩ 7 (by decide) rfl rfl (by decide)

theorem close_ok (q q1 : Queue) (h : Close q = .ok q1) :
    q.closed = false ∧ q1 = { q with closed := true } := by
  unfold Close at h
  cases hc : q.closed with
  | true => rw [hc] at h; simp at h
  | false =>
    rw [hc] at h
    simp at h
    exact ⟨rfl, h.symm⟩

/-- C4: if `Close` succeeds while jobs remain buffered, the worker still
executes every buffered job, in FIFO order (the executed markers are exactly
the buffered markers, in order), and then terminates cleanly; and on an empty
buffer the worker loop terminates exactly when the queue is closed (it blocks
while the queue is still open). -/
theorem drain_to_completion (q q1 : Queue) (h : Close q = .ok q1)
    (hwf : ∀ j ∈ q.buffer, wellFormed j = true) :
    (workJobs q1.buffer q1.closed).2 = .terminated ∧
      transactIds (workJobs q1.buffer q1.closed).1 =
        q.buffer.filterMap jobMarker ∧
      ∀ b : Bool, (workJobs [] b).2 = .terminated ↔ b = true := by
  obtain ⟨hc, hq1⟩ := close_ok q q1 h
  subst hq1
  rw [workJobs_wf q.buffer true hwf]
  refine ⟨rfl, transactIds_traceOf q.buffer hwf, ?_⟩
  intro b
  cases b <;> simp [workJobs]

/-- Witness for C4: closing a queue holding two buffered jobs — both still
run, in order, and the worker terminates. -/
theorem drain_to_completion_witness :
    (workJobs (⟨2, [⟨.mk ⟨1, none⟩, .mk ()⟩, ⟨.mk ⟨2, some 5⟩, .mk ()⟩],
          true⟩ : Queue).buffer
        (⟨2, [⟨.mk ⟨1, none⟩, .mk ()⟩, ⟨.mk ⟨2, some 5⟩, .mk ()⟩],
          true⟩ : Queue).closed).2 = .terminated ∧
      transactIds (workJobs (⟨2, [⟨.mk ⟨1, none⟩, .mk ()⟩,
            ⟨.mk ⟨2, some 5⟩, .mk ()⟩], true⟩ : Queue).buffer
          (⟨2, [⟨.mk ⟨1, none⟩, .mk ()⟩, ⟨.mk ⟨2, some 5⟩, .mk ()⟩],
            true⟩ : Queue).closed).1 =
        (⟨2, [⟨.mk ⟨1, none⟩, .mk ()⟩, ⟨.mk ⟨2, some 5⟩, .mk ()⟩],
          false⟩ : Queue).buffer.filterMap jobMarker ∧
      ∀ b : Bool, (workJobs [] b).2 = .terminated ↔ b = true :=
  drain_to_completion
    ⟨2, [⟨.mk ⟨1, none⟩, .mk ()⟩, ⟨.mk ⟨2, some 5⟩, .mk ()⟩], false⟩
    ⟨2, [⟨.mk ⟨1, none⟩, .mk ()⟩, ⟨.mk ⟨2, some 5⟩, .mk ()⟩], true⟩
    rfl (by decide)

/-- C1: after `Close`, every `AddJob` call returns the recovered
send-on-closed-channel run-time error as a normal error value (the deferred
`recover` converts the panic) and never succeeds, regardless of free buffer
space; the statement quantifies over every closed queue state, so it covers a
queue closed before the call and one that became closed while the caller was
parked on a full buffer (the parked send is re-evaluated against the closed
state). -/
theorem addJob_after_close_fails (q : Queue) (t : GoFunc JobSpec)
    (r : GoFunc Unit) (h : q.closed = true) :
    AddJob q t r = .error (.runtime .sendOnClosedChannel) q ∧
      ∀ q1, AddJob q t r ≠ .ok q1 := by
  constructor
  · simp [AddJob, chanSend, h]
  · intro q1
    simp [AddJob, chanSend, h]

/-- Witness for C1: a closed queue with capacity 5 and an empty buffer (free
space exists) still rejects `AddJob` with the recovered error. -/
theorem addJob_after_close_fails_witness :
    AddJob ⟨5, [], true⟩ (.mk ⟨0, none⟩) (.mk ()) =
        .error (.runtime .sendOnClosedChannel) ⟨5, [], true⟩ ∧
      ∀ q1, AddJob ⟨5, [], true⟩ (.mk ⟨0, none⟩) (.mk ()) ≠ .ok q1 :=
  addJob_after_close_fails ⟨5, [], true⟩ (.mk ⟨0, none⟩) (.mk ()) rfl

/-- C8: a successful `Close` changes only the admission state: the buffered
jobs are exactly the ones buffered before (not discarded, modified or
reordered), the capacity is unchanged, the queue is marked closed, and the
worker drains the very same job list. -/
theorem close_frame (q q1 : Queue) (h : Close q = .ok q1) :
    q1.buffer = q.buffer ∧ q1.capacity = q.capacity ∧ q1.closed = true ∧
      workJobs q1.buffer true = workJobs q.buffer true := by
  unfold Close at h
  cases hc : q.closed with
  | true => rw [hc] at h; cases h
  | false =>
    rw [hc] at h
    simp at h
    subst h
    exact ⟨rfl, rfl, rfl, rfl⟩

/-- Witness for C8: closing an open queue holding two jobs keeps both jobs,
in order, and the capacity. -/
theorem close_frame_witness :
    (⟨2, [⟨.mk ⟨1, none⟩, .mk ()⟩], true⟩ : Queue).buffer =
        (⟨2, [⟨.mk ⟨1, none⟩, .mk ()⟩], false⟩ : Queue).buffer ∧
      (⟨2, [⟨.mk ⟨1, none⟩, .mk ()⟩], true⟩ : Queue).capacity =
        (⟨2, [⟨.mk ⟨1, none⟩, .mk ()⟩], false⟩ : Queue).capacity ∧
      (⟨2, [⟨.mk ⟨1, none⟩, .mk ()⟩], true⟩ : Queue).closed = true ∧
      workJobs (⟨2, [⟨.mk ⟨1, none⟩, .mk ()⟩], true⟩ : Queue).buffer true =
        workJobs (⟨2, [⟨.mk ⟨1, none⟩, .mk ()⟩], false⟩ : Queue).buffer true :=
  close_frame ⟨2, [⟨.mk ⟨1, none⟩, .mk ()⟩], false⟩
    ⟨2, [⟨.mk ⟨1, none⟩, .mk ()⟩], true⟩ rfl

/-- C9 counterexample: calling `Close` on an already-closed queue is not a
no-op and not an error return — `close(q)` on a closed channel raises the
close-of-closed-channel run-time panic, and `Close` installs no recover, so
the fault is unrecoverable (it crashes the calling goroutine's process). -/
theorem close_double_cex :
    Close ⟨1, [], true⟩ = .panicked .closeOfClosedChannel := rfl

/-- C9 amended: calling `Close` on an already-closed queue always raises the
close-of-closed-channel run-time panic — an unrecoverable fault, not a no-op
and not an error return. -/
theorem close_double_panics (q : Queue) (h : q.closed = true) :
    Close q = .panicked .closeOfClosedChannel := by
  simp [Close, h]

/-- Witness for the amended C9. -/
theorem close_double_panics_witness :
    Close ⟨3, [⟨.mk ⟨7, none⟩, .mk ()⟩], true⟩ =
      .panicked .closeOfClosedChannel :=
  close_double_panics ⟨3, [⟨.mk ⟨7, none⟩, .mk ()⟩], true⟩ rfl

theorem eventsFor_append (i : Nat) (a b : List Event) :
    eventsFor i (a ++ b) = eventsFor i a ++ eventsFor i b := by
  simp [eventsFor, List.filter_append]

theorem eventsFor_runJob_self (x : job) (t : JobSpec)
    (htx : x.transact = .mk t) (hwfx : wellFormed x = true) :
    eventsFor t.id (runJob x).1 = (runJob x).1 := by
  cases hr : t.result with
  | none => simp [runJob, eventsFor, eventFor, htx, hr]
  | some e =>
    cases hbr : x.rollback with
    | nil => simp [wellFormed, htx, hr, hbr] at hwfx
    | mk u => simp [runJob, eventsFor, eventFor, htx, hr, hbr]

theorem eventsFor_runJob_other (x : job) (t : JobSpec)
    (htx : x.transact = .mk t) (hwfx : wellFormed x = true)
    (i : Nat) (hne : t.id ≠ i) : eventsFor i (runJob x).1 = [] := by
  cases hr : t.result with
  | none => simp [runJob, eventsFor, eventFor, htx, hr, hne]
  | some e =>
    cases hbr : x.rollback with
    | nil => simp [wellFormed, htx, hr, hbr] at hwfx
    | mk u => simp [runJob, eventsFor, eventFor, htx, hr, hbr, hne]

theorem eventsFor_traceOf_notmem (buf : List job)
    (hwf : ∀ x ∈ buf, wellFormed x = true) (i : Nat)
    (hni : i ∉ buf.filterMap jobMarker) : eventsFor i (traceOf buf) = [] := by
  induction buf with
  | nil => rfl
  | cons x rest ih =>
    have hx : wellFormed x = true := hwf x (List.mem_cons_self x rest)
    have hrest : ∀ y ∈ rest, wellFormed y = true :=
      fun y hy => hwf y (List.mem_cons_of_mem x hy)
    cases htx : x.transact with
    | nil => simp [wellFormed, htx] at hx
    | mk t =>
      have hmk : (x :: rest).filterMap jobMarker =
          t.id :: rest.filterMap jobMarker := by
        simp [List.filterMap_cons, jobMarker, htx]
      rw [hmk] at hni
      have hne : t.id ≠ i := fun h => hni (h ▸ List.mem_cons_self _ _)
      have hnotin : i ∉ rest.filterMap jobMarker :=
        fun h => hni (List.mem_cons_of_mem _ h)
      rw [traceOf, eventsFor_append,
        eventsFor_runJob_other x t htx hx i hne, ih hrest hnotin]
      rfl

theorem eventsFor_traceOf_mem (buf : List job)
    (hwf : ∀ x ∈ buf, wellFormed x = true)
    (hnd : (buf.filterMap jobMarker).Nodup)
    (j : job) (hj : j ∈ buf) (s : JobSpec) (ht : j.transact = .mk s) :
    eventsFor s.id (traceOf buf) = (runJob j).1 := by
  induction buf with
  | nil => cases hj
  | cons x rest ih =>
    have hx : wellFormed x = true := hwf x (List.mem_cons_self x rest)
    have hrest : ∀ y ∈ rest, wellFormed y = true :=
      fun y hy => hwf y (List.mem_cons_of_mem x hy)
    cases htx : x.transact with
    | nil => simp [wellFormed, htx] at hx
    | mk t =>
      have hmk : (x :: rest).filterMap jobMarker =
          t.id :: rest.filterMap jobMarker := by
        simp [List.filterMap_cons, jobMarker, htx]
      rw [hmk] at hnd
      have hnd2 := List.nodup_cons.mp hnd
      rcases List.mem_cons.mp hj with hj1 | hj2
      · subst hj1
        rw [ht] at htx
        cases htx
        rw [traceOf, eventsFor_append, eventsFor_runJob_self j s ht hx,
          eventsFor_traceOf_notmem rest hrest s.id hnd2.1]
        simp
      · have hsid : s.id ∈ rest.filterMap jobMarker :=
          List.mem_filterMap.mpr ⟨j, hj2, by simp [jobMarker, ht]⟩
        have hne : t.id ≠ s.id := fun heq => hnd2.1 (heq ▸ hsid)
        rw [traceOf, eventsFor_append,
          eventsFor_runJob_other x t htx hx s.id hne,
          ih hrest hnd2.2 hj2]
        rfl

/-- C5: with distinct markers, every successfully buffered job is executed at
most once, ever: the events of the whole worker trace that belong to a job
are exactly the events of its single execution (its transact runs exactly
once — the count of its marker among executed transacts is 1 — its rollback
at most once, and nothing further happens to it afterwards). -/
theorem execute_at_most_once (buf : List job)
    (hwf : ∀ x ∈ buf, wellFormed x = true)
    (hnd : (buf.filterMap jobMarker).Nodup)
    (j : job) (hj : j ∈ buf) (s : JobSpec) (ht : j.transact = .mk s) :
    eventsFor s.id (workJobs buf true).1 = (runJob j).1 ∧
      (transactIds (workJobs buf true).1).count s.id = 1 := by
  rw [workJobs_wf buf true hwf]
  refine ⟨eventsFor_traceOf_mem buf hwf hnd j hj s ht, ?_⟩
  rw [transactIds_traceOf buf hwf]
  exact List.count_eq_one_of_mem hnd
    (List.mem_filterMap.mpr ⟨j, hj, by simp [jobMarker, ht]⟩)

/-- Witness for C5: in a three-job buffer, the failing job with marker 2
contributes exactly its own two events to the trace and its transact runs
exactly once. -/
theorem execute_at_most_once_witness :
    eventsFor 2 (workJobs [⟨.mk ⟨1, none⟩, .mk ()⟩, ⟨.mk ⟨2, some 5⟩, .mk ()⟩,
        ⟨.mk ⟨3, none⟩, .mk ()⟩] true).1 =
        (runJob ⟨.mk ⟨2, some 5⟩, .mk ()⟩).1 ∧
      (transactIds (workJobs [⟨.mk ⟨1, none⟩, .mk ()⟩,
          ⟨.mk ⟨2, some 5⟩, .mk ()⟩, ⟨.mk ⟨3, none⟩, .mk ()⟩] true).1).count 2 =
        1 :=
  execute_at_most_once
    [⟨.mk ⟨1, none⟩, .mk ()⟩, ⟨.mk ⟨2, some 5⟩, .mk ()⟩,
      ⟨.mk ⟨3, none⟩, .mk ()⟩] (by decide) (by decide)
    ⟨.mk ⟨2, some 5⟩, .mk ()⟩ (by decide) ⟨2, some 5⟩ rfl

theorem addAll_room (q : Queue) (js : List job) (hc : q.closed = false)
    (hlen : q.buffer.length + js.length ≤ q.capacity) :
    (∀ res ∈ (addAll q js).1, ∃ q1, res = AddJobResult.ok q1) ∧
      (addAll q js).2 = { q with buffer := q.buffer ++ js } := by
  induction js generalizing q with
  | nil => simp [addAll]
  | cons j rest ih =>
    have hl : q.buffer.length < q.capacity := by
      simp only [List.length_cons] at hlen; omega
    have heta : (⟨j.transact, j.rollback⟩ : job) = j := rfl
    have hadd : AddJob q j.transact j.rollback =
        .ok { q with buffer := q.buffer ++ [j] } := by
      simp [AddJob, chanSend, hc, hl, heta]
    obtain ⟨ih1, ih2⟩ := ih { q with buffer := q.buffer ++ [j] }
      (by simp [hc]) (by simp only [List.length_cons] at hlen; simp; omega)
    constructor
    · intro res hres
      simp only [addAll, hadd] at hres
      rcases List.mem_cons.mp hres with h1 | h2
      · exact ⟨_, h1⟩
      · exact ih1 res h2
    · simp only [addAll, hadd, ih2]
      simp

/-- C6: on a fresh queue of capacity `C`, `C` consecutive `AddJob` calls with
no worker running all succeed without blocking and leave exactly those jobs
buffered; the `(C+1)`-th call parks the caller; the parked caller succeeds
as soon as a worker dequeues one job, and fails with the recovered
closed-channel error if the queue is closed instead. -/
theorem capacity_property (C : Nat) (js : List job) (hlen : js.length = C)
    (t : GoFunc JobSpec) (r : GoFunc Unit) :
    (∀ res ∈ (addAll (makeQueue C) js).1, ∃ q1, res = AddJobResult.ok q1) ∧
      (addAll (makeQueue C) js).2 = ⟨C, js, false⟩ ∧
      AddJob ⟨C, js, false⟩ t r = .blocked ∧
      (∀ j0 rest2, js = j0 :: rest2 →
        chanRecv ⟨C, js, false⟩ = .got j0 ⟨C, rest2, false⟩ ∧
          AddJob ⟨C, rest2, false⟩ t r = .ok ⟨C, rest2 ++ [⟨t, r⟩], false⟩) ∧
      ∀ q1, Close ⟨C, js, false⟩ = .ok q1 →
        AddJob q1 t r = .error (.runtime .sendOnClosedChannel) q1 := by
  obtain ⟨h1, h2⟩ := addAll_room (makeQueue C) js rfl (by simp [makeQueue, hlen])
  refine ⟨h1, ?_, ?_, ?_, ?_⟩
  · rw [h2]; simp [makeQueue]
  · simp [AddJob, chanSend, hlen]
  · intro j0 rest2 hjs
    subst hjs
    simp only [List.length_cons] at hlen
    refine ⟨by simp [chanRecv], ?_⟩
    have hl2 : rest2.length < C := by omega
    simp [AddJob, chanSend, hl2]
  · intro q1 hclose
    obtain ⟨hc0, hq1⟩ := close_ok _ q1 hclose
    subst hq1
    simp [AddJob, chanSend]

/-- Witness for C6: capacity 2, two jobs buffered without blocking, the third
call parks; one dequeue unparks it, a close turns it into the error. -/
theorem capacity_property_witness :
    (∀ res ∈ (addAll (makeQueue 2)
        [⟨.mk ⟨1, none⟩, .mk ()⟩, ⟨.mk ⟨2, none⟩, .mk ()⟩]).1,
        ∃ q1, res = AddJobResult.ok q1) ∧
      (addAll (makeQueue 2)
          [⟨.mk ⟨1, none⟩, .mk ()⟩, ⟨.mk ⟨2, none⟩, .mk ()⟩]).2 =
        ⟨2, [⟨.mk ⟨1, none⟩, .mk ()⟩, ⟨.mk ⟨2, none⟩, .mk ()⟩], false⟩ ∧
      AddJob ⟨2, [⟨.mk ⟨1, none⟩, .mk ()⟩, ⟨.mk ⟨2, none⟩, .mk ()⟩], false⟩
          (.mk ⟨9, none⟩) (.mk ()) = .blocked ∧
      (∀ j0 rest2,
        [⟨.mk ⟨1, none⟩, .mk ()⟩, ⟨.mk ⟨2, none⟩, .mk ()⟩] = j0 :: rest2 →
        chanRecv ⟨2, [⟨.mk ⟨1, none⟩, .mk ()⟩, ⟨.mk ⟨2, none⟩, .mk ()⟩],
            false⟩ = .got j0 ⟨2, rest2, false⟩ ∧
          AddJob ⟨2, rest2, false⟩ (.mk ⟨9, none⟩) (.mk ()) =
            .ok ⟨2, rest2 ++ [⟨.mk ⟨9, none⟩, .mk ()⟩], false⟩) ∧
      ∀ q1, Close ⟨2, [⟨.mk ⟨1, none⟩, .mk ()⟩, ⟨.mk ⟨2, none⟩, .mk ()⟩],
          false⟩ = .ok q1 →
        AddJob q1 (.mk ⟨9, none⟩) (.mk ()) =
          .error (.runtime .sendOnClosedChannel) q1 :=
  capacity_property 2 [⟨.mk ⟨1, none⟩, .mk ()⟩, ⟨.mk ⟨2, none⟩, .mk ()⟩]
    rfl (.mk ⟨9, none⟩) (.mk ())

/-- C7: a job's execution outcome is never surfaced to the enqueuing caller:
the only non-nil error `AddJob` can return is the recovered closed-channel
error (so closure is its sole failure mode), the shape of the `AddJob` result
does not depend on the supplied callables at all (in particular not on
whether the transact will later fail), and a failing transact's error is
routed exactly to that job's rollback and then dropped — the worker carries
no result back. -/
theorem job_outcome_not_surfaced :
    (∀ q t r e q1, AddJob q t r = .error e q1 →
        q.closed = true ∧ e = .runtime .sendOnClosedChannel ∧ q1 = q) ∧
      (∀ q t1 r1 t2 r2, addJobOutcomeShape (AddJob q t1 r1) =
        addJobOutcomeShape (AddJob q t2 r2)) ∧
      ∀ x t e, x.transact = .mk t → t.result = some e → x.rollback ≠ .nil →
        runJob x = ([.transactRun t.id (some e), .rollbackRun t.id e], none) := by
  refine ⟨?_, ?_, ?_⟩
  · intro q t r e q1 h
    unfold AddJob chanSend at h
    cases hc : q.closed with
    | true =>
      rw [hc] at h
      simp at h
      exact ⟨rfl, h.1.symm, h.2.symm⟩
    | false =>
      rw [hc] at h
      by_cases hl : q.buffer.length < q.capacity <;> simp [hl] at h
  · intro q t1 r1 t2 r2
    cases hc : q.closed with
    | true => simp [AddJob, chanSend, hc, addJobOutcomeShape]
    | false =>
      by_cases hl : q.buffer.length < q.capacity <;>
        simp [AddJob, chanSend, hc, hl, addJobOutcomeShape]
  · intro x t e htx hres hb
    exact runJob_fail x t e htx hres hb

/-- Witness for C7: the error branch instantiated on a concrete closed queue
and the rollback routing on a concrete failing job. -/
theorem job_outcome_not_surfaced_witness :
    ((⟨2, [], true⟩ : Queue).closed = true ∧
        (GoError.runtime .sendOnClosedChannel : GoError) =
          .runtime .sendOnClosedChannel ∧
        (⟨2, [], true⟩ : Queue) = ⟨2, [], true⟩) ∧
      runJob ⟨.mk ⟨4, some 9⟩, .mk ()⟩ =
        ([.transactRun 4 (some 9), .rollbackRun 4 9], none) :=
  ⟨job_outcome_not_surfaced.1 ⟨2, [], true⟩ .nil .nil
      (.runtime .sendOnClosedChannel) ⟨2, [], true⟩ rfl,
    job_outcome_not_surfaced.2.2 ⟨.mk ⟨4, some 9⟩, .mk ()⟩ ⟨4, some 9⟩ 9
      rfl rfl (by decide)⟩

/-- C10: `AddJob` never inspects the supplied callables — the shape of its
result is the same for nil callables as for any others, so nil functions are
admitted without validation; a nil transact, or a nil rollback paired with a
failing transact, raises the nil-function-call run-time panic when the worker
executes that job, and the worker loop has no recover, so the panic aborts
it. -/
theorem nil_callables_fault :
    (∀ q t r, addJobOutcomeShape (AddJob q t r) =
        addJobOutcomeShape (AddJob q .nil .nil)) ∧
      (∀ x, x.transact = .nil → runJob x = ([], some .nilFunctionCall)) ∧
      (∀ x t e, x.transact = .mk t → t.result = some e → x.rollback = .nil →
        runJob x = ([.transactRun t.id (some e)], some .nilFunctionCall)) ∧
      ∀ x rest closed, x.transact = .nil →
        (workJobs (x :: rest) closed).2 = .panicked .nilFunctionCall := by
  refine ⟨?_, ?_, ?_, ?_⟩
  · intro q t r
    cases hc : q.closed with
    | true => simp [AddJob, chanSend, hc, addJobOutcomeShape]
    | false =>
      by_cases hl : q.buffer.length < q.capacity <;>
        simp [AddJob, chanSend, hc, hl, addJobOutcomeShape]
  · intro x hx
    simp [runJob, hx]
  · intro x t e htx hres hb
    simp [runJob, htx, hres, hb]
  · intro x rest closed hx
    simp [workJobs, runJob, hx]

/-- Witness for C10: a job with both callables nil panics on execution, a
failing transact with nil rollback panics in the rollback call, and a worker
whose next job has a nil transact aborts with the panic. -/
theorem nil_callables_fault_witness :
    runJob ⟨.nil, .nil⟩ = ([], some .nilFunctionCall) ∧
      runJob ⟨.mk ⟨1, some 3⟩, .nil⟩ =
        ([.transactRun 1 (some 3)], some .nilFunctionCall) ∧
      (workJobs [(⟨.nil, .nil⟩ : job)] true).2 = .panicked .nilFunctionCall :=
  ⟨nil_callables_fault.2.1 ⟨.nil, .nil⟩ rfl,
    nil_callables_fault.2.2.1 ⟨.mk ⟨1, some 3⟩, .nil⟩ ⟨1, some 3⟩ 3 rfl rfl rfl,
    nil_callables_fault.2.2.2 ⟨.nil, .nil⟩ [] true rfl⟩

end GoJobQueue
